import Mathlib

/-!
Verification of the crafting planner (`craft_planner.py`): a shallow
embedding of the inventory state, recipe checkers/effectors, goal checker,
heuristic and the priority-queue search, together with theorems settling
the specification claims.

Conventions of the embedding:
* A Python `State` (an `OrderedDict` of item counts, order-preserving) is an
  ordered association list `List (Item × Int)`.  Indexing a missing key is a
  `KeyError`, so lookups run in `Except PyErr`.
* Python floats used for costs and priorities are modelled exactly: every
  number the planner manipulates is an integer (recipe `Time` values, the
  heuristic's biases) or `inf`, and float arithmetic on such values is
  exact, so costs are `Int` and priorities are `Int` extended with `inf`
  (the `Prio` type); none of the program's arithmetic can produce `nan`.
* The wall-clock budget of the search loop is modelled by a fuel counter:
  one unit per iteration of the `while` loop (the code checks the clock
  exactly once per iteration, so a run that performs `n` iterations is a
  run whose budget expires after `n` clock checks).
* The path-reconstruction `while` loop gets its own fuel; exhausting it is
  the model artifact `PyErr.reconFuel` (the Python loop would only fail to
  terminate on a cyclic predecessor table).
-/

namespace CraftPlanner

abbrev Item := String

/-- Inventory state: ordered association list of item names and counts,
mirroring the Python `State` subclass of `OrderedDict` (insertion order is
part of equality, hashing and the `__lt__` tie-break order). -/
abbrev State := List (Item × Int)

/-- Python runtime errors the planner can raise: `KeyError` on a string key,
`KeyError` on a state used as a dict key, `IndexError` from `heappop` on an
empty heap, and the model-only fuel marker for the reconstruction loop. -/
inductive PyErr where
  | keyErr (key : String)
  | keyErrState (s : State)
  | popEmpty
  | reconFuel
deriving DecidableEq, Repr

instance instDecEqExcept {ε α : Type} [DecidableEq ε] [DecidableEq α] :
    DecidableEq (Except ε α) := fun a b =>
  match a, b with
  | .error e, .error f =>
    match decEq e f with
    | isTrue h => isTrue (h ▸ rfl)
    | isFalse h => isFalse (fun hh => h (Except.error.inj hh))
  | .ok x, .ok y =>
    match decEq x y with
    | isTrue h => isTrue (h ▸ rfl)
    | isFalse h => isFalse (fun hh => h (Except.ok.inj hh))
  | .error _, .ok _ => isFalse (fun hh => Except.noConfusion hh)
  | .ok _, .error _ => isFalse (fun hh => Except.noConfusion hh)

/-- Python `state[k]`: value of the first entry with key `k`, `KeyError`
when the key is absent. -/
def dget (s : State) (k : Item) : Except PyErr Int :=
  match s with
  | [] => .error (.keyErr k)
  | (k', v) :: rest => if k' = k then .ok v else dget rest k

/-- Python `state[k] = v`: overwrite the first entry with key `k` in place,
append a fresh entry when the key is absent (dict `__setitem__`). -/
def dset (s : State) (k : Item) (v : Int) : State :=
  match s with
  | [] => [(k, v)]
  | (k', v') :: rest => if k' = k then (k', v) :: rest else (k', v') :: dset rest k v

/-- One crafting rule: `Requires` (gating items, count ≥ 1), `Consumes`
(item → amount subtracted) and `Produces` (item → amount added).  A missing
`Requires`/`Consumes` section of the JSON is the empty list. -/
structure Rule where
  requires : List Item
  consumes : List (Item × Int)
  produces : List (Item × Int)
deriving DecidableEq, Repr

/-- The `Consumes` part of `make_checker`'s `check`: walks every consumed
item (no short-circuit; the Python loop sets `possible = False` and keeps
going) and accumulates the flag. -/
def checkCons (l : List (Item × Int)) (s : State) (p : Bool) : Except PyErr Bool :=
  match l with
  | [] => .ok p
  | (m, a) :: rest =>
    match dget s m with
    | .error e => .error e
    | .ok v => checkCons rest s (p && decide (a ≤ v))

/-- The `Requires` part of `make_checker`'s `check`: every required item
must have count ≥ 1. -/
def checkReq (l : List Item) (s : State) (p : Bool) : Except PyErr Bool :=
  match l with
  | [] => .ok p
  | m :: rest =>
    match dget s m with
    | .error e => .error e
    | .ok v => checkReq rest s (p && decide (1 ≤ v))

/-- `make_checker(rule)`'s `check(state)`: true iff every consumed item is
held in at least the consumed amount and every required item in count ≥ 1. -/
def check (r : Rule) (s : State) : Except PyErr Bool :=
  match checkCons r.consumes s true with
  | .error e => .error e
  | .ok p => checkReq r.requires s p

/-- The `Consumes` loop of `make_effector`'s `effect`:
`next_state[material] -= rule['Consumes'][material]` for each material. -/
def applyCons (l : List (Item × Int)) (s : State) : Except PyErr State :=
  match l with
  | [] => .ok s
  | (m, a) :: rest =>
    match dget s m with
    | .error e => .error e
    | .ok v => applyCons rest (dset s m (v - a))

/-- The `Produces` loop of `make_effector`'s `effect`:
`next_state[product] += rule['Produces'][product]` for each product. -/
def applyProd (l : List (Item × Int)) (s : State) : Except PyErr State :=
  match l with
  | [] => .ok s
  | (m, a) :: rest =>
    match dget s m with
    | .error e => .error e
    | .ok v => applyProd rest (dset s m (v + a))

/-- `make_effector(rule)`'s `effect(state)`: copy the state, subtract all
consumed amounts, then add all produced amounts.  The copy (`state.copy()`)
is implicit in the value semantics: the result is built afresh and the
argument is untouched. -/
def effect (r : Rule) (s : State) : Except PyErr State :=
  match applyCons r.consumes s with
  | .error e => .error e
  | .ok s1 => applyProd r.produces s1

/-- The counting loop of `make_goal_checker`'s `is_goal`: `reached` is
incremented for every goal item whose count meets its threshold. -/
def goReached (s : State) (goal : List (Item × Int)) (acc : Nat) : Except PyErr Nat :=
  match goal with
  | [] => .ok acc
  | (g, v) :: rest =>
    match dget s g with
    | .error e => .error e
    | .ok n => goReached s rest (if v ≤ n then acc + 1 else acc)

/-- `make_goal_checker(goal)`'s `is_goal(state)`: true iff the number of
goal items whose count meets the threshold equals the number of goals. -/
def is_goal (goal : List (Item × Int)) (s : State) : Except PyErr Bool :=
  match goReached s goal 0 with
  | .error e => .error e
  | .ok r => .ok (r == goal.length)

/-- A compiled recipe: name, rule and cost (`rule['Time']`), as built in the
`__main__` block via `Recipe(name, checker, effector, rule['Time'])`. -/
structure Recipe where
  name : String
  rule : Rule
  cost : Int
deriving DecidableEq, Repr

/-- `graph(state)`: for each recipe in order, if its check passes, yield
`(name, effect(state), cost)`.  (The generator is consumed eagerly here; an
exception raised while generating aborts the whole search either way.) -/
def graphSucc (rs : List Recipe) (s : State) : Except PyErr (List (String × State × Int)) :=
  match rs with
  | [] => .ok []
  | r :: rest =>
    match check r.rule s with
    | .error e => .error e
    | .ok b =>
      if b then
        match effect r.rule s with
        | .error e => .error e
        | .ok t =>
          match graphSucc rest s with
          | .error e => .error e
          | .ok others => .ok ((r.name, t, r.cost) :: others)
      else graphSucc rest s

/-- Priorities: Python floats as produced by the planner — an integer or
`inf`.  (The heuristic only ever returns integers or `inf`, and costs are
finite integers, so `nan`/`-inf` never arise and arithmetic is exact.) -/
inductive Prio where
  | fin (q : Int)
  | inf
deriving DecidableEq, Repr

/-- Python float addition restricted to the values the planner builds:
`inf` absorbs. -/
def Prio.add : Prio → Prio → Prio
  | .fin a, .fin b => .fin (a + b)
  | _, _ => .inf

/-- Python `<` on these floats: `inf` is below nothing, everything finite
is below `inf`. -/
def Prio.ltB : Prio → Prio → Bool
  | .fin a, .fin b => decide (a < b)
  | .fin _, .inf => true
  | .inf, _ => false

/-- `pat` is an initial segment of the character list. -/
def charsInit : List Char → List Char → Bool
  | [], _ => true
  | _ :: _, [] => false
  | p :: ps, c :: cs => p == c && charsInit ps cs

/-- `pat` occurs as a contiguous sublist. -/
def charsSub (pat : List Char) : List Char → Bool
  | [] => charsInit pat []
  | c :: cs => charsInit pat (c :: cs) || charsSub pat cs

/-- Python `pat in s` on strings: substring containment. -/
def strIn (pat s : String) : Bool := charsSub pat.data s.data

/-- The strongest-pickaxe computation repeated in the three gathering
branches of `heuristic`: the `if/elif` ladder over
`current_state['iron_pickaxe']`, `['stone_pickaxe']`, `['wooden_pickaxe']`
(each lookup only happens when the previous test failed), with `""` when
none is held. -/
def strongestPick (cur : State) : Except PyErr String :=
  match dget cur "iron_pickaxe" with
  | .error e => .error e
  | .ok ip =>
    cond (decide (0 < ip)) (.ok "iron_pickaxe")
      (match dget cur "stone_pickaxe" with
       | .error e => .error e
       | .ok sp =>
         cond (decide (0 < sp)) (.ok "stone_pickaxe")
           (match dget cur "wooden_pickaxe" with
            | .error e => .error e
            | .ok wp => cond (decide (0 < wp)) (.ok "wooden_pickaxe") (.ok "")))

/-- One `if "<trig>" in action:` tool-tier branch of `heuristic`: when the
trigger matches and the action does not mention the strongest held pickaxe,
the branch returns `inf`; otherwise it falls through (`none`). -/
def axeBranch (trig : String) (cur : State) (action : String) : Except PyErr (Option Prio) :=
  cond (strIn trig action)
    (match strongestPick cur with
     | .error e => .error e
     | .ok t => cond (strIn t action) (.ok none) (.ok (some .inf)))
    (.ok none)

/-- The `"stone_axe at bench"` branch of `heuristic`: `-100` when no stone
axe is held yet, otherwise fall through. -/
def benchStoneAxe (cur : State) (action : String) : Except PyErr (Option Prio) :=
  cond (strIn "stone_axe at bench" action)
    (match dget cur "stone_axe" with
     | .error e => .error e
     | .ok v => cond (decide (v < 1)) (.ok (some (.fin (-100)))) (.ok none))
    (.ok none)

/-- The `"craft cart"` branch of `heuristic`: `inf` when the resulting state
holds more than one cart, else `-1000`. -/
def cartBranch (eff : State) (action : String) : Except PyErr (Option Prio) :=
  cond (strIn "craft cart" action)
    (match dget eff "cart" with
     | .error e => .error e
     | .ok v => .ok (some (cond (decide (1 < v)) .inf (.fin (-1000)))))
    (.ok none)

/-- The `"craft rail"` branch of `heuristic`: `-1000` in both arms of its
`if current_state['cart'] > 0` test. -/
def railBranch (cur : State) (action : String) : Except PyErr (Option Prio) :=
  cond (strIn "craft rail" action)
    (match dget cur "cart" with
     | .error e => .error e
     | .ok v => .ok (some (cond (decide (0 < v)) (.fin (-1000)) (.fin (-1000)))))
    (.ok none)

/-- The terminal `if/elif` ladder of `heuristic` (lines 157-208): singleton
durable goods → `inf`; large stockpiles → `1000`; medium stockpiles →
`500`; pickaxe upgrades → `-100` / `-10`; default `0`.  Each dict lookup
happens exactly when its test is reached, as in Python. -/
def tailChain (cur eff : State) : Except PyErr Prio := do
  let bench ← dget eff "bench"
  if 1 < bench then return .inf
  else do
  let woodAxe ← dget eff "wooden_axe"
  if 1 < woodAxe then return .inf
  else do
  let furnace ← dget eff "furnace"
  if 1 < furnace then return .inf
  else do
  let woodPick ← dget eff "wooden_pickaxe"
  if 1 < woodPick then return .inf
  else do
  let stonePick ← dget eff "stone_pickaxe"
  if 1 < stonePick then return .inf
  else do
  let stoneAxe ← dget eff "stone_axe"
  if 1 < stoneAxe then return .inf
  else do
  let ironPick ← dget eff "iron_pickaxe"
  if 1 < ironPick then return .inf
  else do
  let ironAxe ← dget eff "iron_axe"
  if 1 < ironAxe then return .inf
  else do
  let plank ← dget eff "plank"
  if 8 < plank then return .fin 1000
  else do
  let wood ← dget eff "wood"
  if 3 < wood then return .fin 1000
  else do
  let stick ← dget eff "stick"
  if 5 < stick then return .fin 1000
  else do
  let cobble ← dget eff "cobble"
  if 8 < cobble then return .fin 1000
  else do
  let coal ← dget eff "coal"
  if 17 < coal then return .fin 1000
  else do
  let ore ← dget eff "ore"
  if 17 < ore then return .fin 1000
  else do
  let ingot ← dget eff "ingot"
  if 17 < ingot then return .fin 1000
  else if 4 < plank then return .fin 500
  else if 2 < wood then return .fin 500
  else if 2 < stick then return .fin 500
  else if 5 < cobble then return .fin 500
  else if 5 < coal then return .fin 500
  else if 5 < ore then return .fin 500
  else if 7 < ingot then return .fin 500
  else do
  let ipCur ← dget cur "iron_pickaxe"
  if ipCur = 0 ∧ ironPick = 1 then return .fin (-100)
  else do
  let spCur ← dget cur "stone_pickaxe"
  if spCur = 0 ∧ stonePick = 1 then return .fin (-10)
  else return .fin 0

/-- Chain two heuristic fragments: if the first returns early, its value
wins; otherwise control falls through to the rest. -/
def hOr (a : Except PyErr (Option Prio)) (b : Except PyErr Prio) : Except PyErr Prio :=
  match a with
  | .error e => .error e
  | .ok (some v) => .ok v
  | .ok none => b

/-- `heuristic(current_state, effect_state, action)` of the planner, in the
source's evaluation order. -/
def heuristic (cur eff : State) (action : String) : Except PyErr Prio :=
  hOr (axeBranch "axe for coal" cur action)
    (hOr (axeBranch "axe for cobble" cur action)
      (hOr (axeBranch "axe for ore" cur action)
        (hOr (benchStoneAxe cur action)
          (hOr (cartBranch eff action)
            (hOr (railBranch cur action) (tailChain cur eff))))))

/-- A predecessor-table entry: the start sentinel `(None, "start")`, or
`(predecessor, action, edge cost)` as stored by the search loop. -/
inductive CF where
  | origin
  | via (pred : State) (act : String) (cost : Int)
deriving DecidableEq, Repr

/-- Ghost trace events: every `heappush` (with its priority) and every
`heappop` (with the entry's priority, its state, the cost-so-far recorded
for the state when the entry was pushed, the cost-so-far at pop time, and
whether the engine went on to expand the state's successors).  The trace
records what happens without influencing it. -/
inductive Ev where
  | push (p : Prio) (s : State)
  | pop (p : Prio) (s : State) (cPush : Int) (cNow : Option Int) (expanded : Bool)
deriving DecidableEq, Repr

/-- A heap entry `(priority, state)` plus the ghost pushed-cost used only by
the trace. -/
abbrev Ent := Prio × State × Int

/-- The mutable search state: the heap, `came_from`, `cost_so_far` and the
ghost trace. -/
structure SSt where
  queue : List Ent
  cameFrom : State → Option CF
  costSoFar : State → Option Int
  trace : List Ev

/-- Python `<` on single characters: code-point order. -/
def charLtB (a b : Char) : Bool := decide (a.toNat < b.toNat)

/-- Python `<` on lists of characters: lexicographic, a proper initial
segment is smaller. -/
def charsLtB : List Char → List Char → Bool
  | _, [] => false
  | [], _ :: _ => true
  | a :: as, b :: bs => charLtB a b || (a == b && charsLtB as bs)

/-- Python `<` on strings: lexicographic by code point. -/
def strLtB (a b : String) : Bool := charsLtB a.data b.data

/-- Python `<` on the tuples `(item, count)` inside a state key. -/
def entLtB (a b : Item × Int) : Bool :=
  strLtB a.1 b.1 || (a.1 == b.1 && decide (a.2 < b.2))

/-- Python `<` on two states (`State.__lt__`: lexicographic comparison of
`tuple(self.items())`). -/
def stateLtB : State → State → Bool
  | _, [] => false
  | [], _ :: _ => true
  | e :: es, f :: fs => entLtB e f || (e == f && stateLtB es fs)

/-- Python `<` on heap entries `(priority, state)`; the ghost cost is not
compared (the Python tuples do not carry it). -/
def qLt (a b : Ent) : Bool :=
  Prio.ltB a.1 b.1 || (a.1 == b.1 && stateLtB a.2.1 b.2.1)

/-- Least entry of the heap: fold keeping the earliest minimum. -/
def minEnt (e : Ent) : List Ent → Ent
  | [] => e
  | f :: rest => minEnt (if qLt f e then f else e) rest

/-- Remove the first occurrence of a value from the heap list. -/
def eraseFirst (m : Ent) : List Ent → List Ent
  | [] => []
  | e :: rest => if e = m then rest else e :: eraseFirst m rest

/-- `heappop`: return the least `(priority, state)` entry and the rest of
the heap; `none` models the `IndexError` on an empty heap. -/
def popMin (q : List Ent) : Option (Ent × List Ent) :=
  match q with
  | [] => none
  | e :: rest => some (minEnt e rest, eraseFirst (minEnt e rest) (e :: rest))

/-- One relaxation of the inner `for possible_action, effect_state, cost`
loop body: if the successor is unseen or improved, record the new
cost-so-far, compute `priority = new_cost + heuristic(...)`, push when
`priority < 10000`, and overwrite `came_from`. -/
def relax (hfn : State → State → String → Except PyErr Prio) (cur : State)
    (st : SSt) (succ : String × State × Int) : Except PyErr SSt :=
  match st.costSoFar cur with
  | none => .error (.keyErrState cur)
  | some cCur =>
    let act := succ.1
    let nxt := succ.2.1
    let c := succ.2.2
    let newCost := cCur + c
    let upd : Bool :=
      match st.costSoFar nxt with
      | none => true
      | some old => decide (newCost < old)
    if upd then
      match hfn cur nxt act with
      | .error e => .error e
      | .ok bias =>
        let prio := Prio.add (.fin newCost) bias
        let doPush := Prio.ltB prio (.fin 10000)
        .ok ⟨(if doPush then st.queue ++ [(prio, nxt, newCost)] else st.queue),
             (fun s => if s = nxt then some (.via cur act c) else st.cameFrom s),
             (fun s => if s = nxt then some newCost else st.costSoFar s),
             (if doPush then st.trace ++ [.push prio nxt] else st.trace)⟩
    else .ok st

/-- The whole inner `for possible_action, effect_state, cost in graph(current)`
loop: relax each successor in order. -/
def expandAll (hfn : State → State → String → Except PyErr Prio) (cur : State)
    (st : SSt) : List (String × State × Int) → Except PyErr SSt
  | [] => .ok st
  | a :: rest =>
    match relax hfn cur st a with
    | .error e => .error e
    | .ok st1 => expandAll hfn cur st1 rest

/-- The search outcome: the Python function returns `None` on failure and
the `path` list on success; `printedCost` is the total cost the code sums
during reconstruction and prints (`print(f'total cost is {cost} ...')`) —
it is not part of the Python return value. -/
inductive SOutcome where
  | failure
  | success (path : List (State × String)) (printedCost : Int)
deriving DecidableEq, Repr

/-- The body of the reconstruction loop
`while ptr[1] is not "start": path.insert(0, (ptr[0], ptr[1])); cost += ptr[2]; ptr = came_from[ptr[0]]`. -/
def reconLoop (cf : State → Option CF) :
    Nat → CF → List (State × String) → Int → Except PyErr (List (State × String) × Int)
  | _, .origin, path, c => .ok (path, c)
  | 0, .via _ _ _, _, _ => .error .reconFuel
  | rf + 1, .via pred act c0, path, c =>
    match cf pred with
    | none => .error (.keyErrState pred)
    | some ptr => reconLoop cf rf ptr ((pred, act) :: path) (c + c0)

/-- Path reconstruction from `came_from[end_state]` back to the start
sentinel. -/
def recon (cf : State → Option CF) (endState : State) (rf : Nat) :
    Except PyErr (List (State × String) × Int) :=
  match cf endState with
  | none => .error (.keyErrState endState)
  | some ptr => reconLoop cf rf ptr [] 0

/-- The `while time() - start_time < limit:` loop of `search`, one fuel
unit per iteration.  Fuel 0 is the budget expiring, which makes the code
fall through to the failure return.  Each iteration pops (raising on an
empty heap), finishes on a goal state, and otherwise relaxes every
successor. -/
def loop (gfn : State → Except PyErr (List (String × State × Int)))
    (isg : State → Except PyErr Bool)
    (hfn : State → State → String → Except PyErr Prio) :
    Nat → Nat → SSt → Except PyErr (SOutcome × List Ev)
  | 0, _, st => .ok (.failure, st.trace)
  | fuel + 1, rfuel, st =>
    match popMin st.queue with
    | none => .error .popEmpty
    | some (ent, q') =>
      match isg ent.2.1 with
      | .error e => .error e
      | .ok true =>
        match recon st.cameFrom ent.2.1 rfuel with
        | .error e => .error e
        | .ok pc =>
          .ok (.success pc.1 pc.2,
            st.trace ++ [.pop ent.1 ent.2.1 ent.2.2 (st.costSoFar ent.2.1) false])
      | .ok false =>
        match gfn ent.2.1 with
        | .error e => .error e
        | .ok succs =>
          match expandAll hfn ent.2.1
              (SSt.mk q' st.cameFrom st.costSoFar
                (st.trace ++ [.pop ent.1 ent.2.1 ent.2.2 (st.costSoFar ent.2.1) true]))
              succs with
          | .error e => .error e
          | .ok st' => loop gfn isg hfn fuel rfuel st'

/-- `search(graph, state, is_goal, limit, heuristic)`: seed the heap with
`(0, start)`, `cost_so_far[start] = 0`, `came_from[start] = (None, "start")`
and run the loop.  `fuel` models the wall-clock budget (iterations until
`time() - start_time < limit` fails), `rfuel` bounds the reconstruction
loop of the model. -/
def search (gfn : State → Except PyErr (List (String × State × Int))) (start : State)
    (isg : State → Except PyErr Bool)
    (hfn : State → State → String → Except PyErr Prio)
    (fuel rfuel : Nat) : Except PyErr (SOutcome × List Ev) :=
  loop gfn isg hfn fuel rfuel
    (SSt.mk [(.fin 0, start, 0)]
      (fun s => if s = start then some .origin else none)
      (fun s => if s = start then some (0 : Int) else none)
      [.push (.fin 0) start])

/-- The value `search` actually returns to its caller: `None` on failure,
the path list on success. -/
def retOf : SOutcome → Option (List (State × String))
  | .failure => none
  | .success p _ => some p

/-- Python truthiness of the returned plan, as tested by
`if resulting_plan:` in the `__main__` block (both `None` and `[]` are
falsy). -/
def truthy : Option (List (State × String)) → Bool
  | none => false
  | some p => !p.isEmpty

/-- Zero-bias heuristic (plain uniform-cost search), a legitimate input to
`search`. -/
def hzero : State → State → String → Except PyErr Prio := fun _ _ _ => .ok (.fin 0)

/-- The "chop" recipe of the spec's end-to-end example: no requires or
consumes, produces one wood. -/
def ruleChop : Rule := ⟨[], [], [("wood", 1)]⟩

/-- The "craft plank" recipe of the spec's end-to-end example: consumes one
wood, produces one plank. -/
def rulePlank : Rule := ⟨[], [("wood", 1)], [("plank", 1)]⟩

def recChop : Recipe := ⟨"chop", ruleChop, 1⟩

def recPlank : Recipe := ⟨"craft plank", rulePlank, 1⟩

def exRecipes : List Recipe := [recChop, recPlank]

/-- Start state of the example universe: `{wood: 0, plank: 0}`. -/
def exStart : State := [("wood", 0), ("plank", 0)]

/-- Goal of the example: `{plank: 1}`. -/
def exGoal : List (Item × Int) := [("plank", 1)]

/-- State after one "chop". -/
def exS1 : State := [("wood", 1), ("plank", 0)]

/-- The example search run with the planner's own heuristic (claim C5). -/
def runC5 : Except PyErr (SOutcome × List Ev) :=
  search (graphSucc exRecipes) exStart (is_goal exGoal) heuristic 5 5

/-- The example search run with a zero bias (claim C4). -/
def runC4 : Except PyErr (SOutcome × List Ev) :=
  search (graphSucc exRecipes) exStart (is_goal exGoal) hzero 10 10

def sA : State := [("n", 0)]
def sB : State := [("n", 1)]
def sC : State := [("n", 2)]
def sD : State := [("n", 3)]

/-- Successor function for the stale-entry scenario (claim C1): `sB` is
reached at cost 10 directly and at cost 3 via `sC`, so the `(10, sB)` heap
entry goes stale once the cheaper route is relaxed. -/
def gfnC1 : State → Except PyErr (List (String × State × Int)) := fun s =>
  if s = sA then .ok [("slow", sB, 10), ("quick", sC, 1)]
  else if s = sC then .ok [("mid", sB, 2)]
  else if s = sB then .ok [("fin", sD, 100)]
  else .ok []

def runC1 : Except PyErr (SOutcome × List Ev) :=
  search gfnC1 sA (is_goal [("n", 3)]) hzero 10 10

/-- A popped entry whose recorded cost-so-far at pop time is better than
the cost it was pushed with, and that was nevertheless expanded. -/
def staleExpanded : Ev → Bool
  | .pop _ _ cPush (some cNow) true => decide (cNow < cPush)
  | _ => false

def tA : State := [("m", 0)]
def tM : State := [("m", 1)]
def tX : State := [("m", 2)]

/-- Successor function for the infinite-bias scenario (claim C2): `tX` is
first pushed via "expensive", then relaxed via "forbidden" whose bias is
infinite. -/
def gfnC2 : State → Except PyErr (List (String × State × Int)) := fun s =>
  if s = tA then .ok [("expensive", tX, 10), ("step", tM, 1)]
  else if s = tM then .ok [("forbidden", tX, 1)]
  else .ok []

/-- Heuristic for the C2 scenario: infinite bias exactly on "forbidden". -/
def hC2 : State → State → String → Except PyErr Prio :=
  fun _ _ act => .ok (if act = "forbidden" then .inf else .fin 0)

def runC2 : Except PyErr (SOutcome × List Ev) :=
  search gfnC2 tA (is_goal [("m", 2)]) hC2 10 10

/-- Start state for the unreachable-goal scenario (claim C3). -/
def u0 : State := [("gem", 0)]

/-- Start state of a trivial run whose goal is already satisfied. -/
def w0 : State := [("w", 0)]

/-- A trivial one-iteration run: the start already satisfies the goal. -/
def runW : Except PyErr (SOutcome × List Ev) :=
  search (graphSucc []) w0 (is_goal [("w", 0)]) hzero 1 1

/-- Start state for the claim C10 witness. -/
def z0 : State := [("z", 0)]

/-- Every `heappush` recorded in a trace pushed a priority below 10000
(in particular a finite one). -/
def pushesBelow (tr : List Ev) : Prop :=
  ∀ p s, Ev.push p s ∈ tr → Prio.ltB p (.fin 10000) = true ∧ p ≠ .inf

/-- All item counts of a state are non-negative. -/
def nonneg (s : State) : Prop := ∀ e ∈ s, 0 ≤ e.2

/-- States reachable from `s` by chains of rules whose applicability check
passes before the effect is applied. -/
inductive ReachableBy (rs : List Rule) : State → State → Prop where
  | refl (s : State) : ReachableBy rs s s
  | step {s t u : State} (r : Rule) (hr : r ∈ rs) (ht : ReachableBy rs s t)
      (hc : check r t = .ok true) (he : effect r t = .ok u) : ReachableBy rs s u

/-- A goal entry is satisfied by a state: the item is present with a count
meeting the threshold. -/
def satB (s : State) (gv : Item × Int) : Bool :=
  match dget s gv.1 with
  | .ok n => decide (gv.2 ≤ n)
  | .error _ => false

/-- Net amount an association list assigns to a key (0 when absent); with
duplicate-free keys this is the unique `Consumes`/`Produces` amount. -/
def amt (l : List (Item × Int)) (k : Item) : Int :=
  match l with
  | [] => 0
  | (m, a) :: rest => if m = k then a else amt rest k

/-! ### Claim theorems: concrete runs -/

/-- C1: the claim says a popped entry whose recorded cost-so-far is better
than the cost it was pushed with (a stale entry) is skipped without
re-expansion.  The code has no such guard: in this run `sB` is first pushed
with cost 10, then relaxed to cost 3 via `sC`; when the stale `(10, sB)`
entry is popped, `cost_so_far[sB] = 3 < 10`, yet the engine expands its
successors again (`staleExpanded` finds such a pop event in the trace). -/
theorem claim1_stale_entries_expanded :
    runC1.map (fun r => retOf r.1) = .ok (some [(sA, "quick"), (sC, "mid"), (sB, "fin")])
      ∧ runC1.map (fun r => r.2.any staleExpanded) = .ok true := by decide

/-- C2 counterexample: a transition with infinite bias is *not* permanently
excluded from consideration.  In this run, `tX` is first pushed via
"expensive"; the later relaxation via "forbidden" has bias `inf`, so it is
not pushed, but `came_from[tX]` is still overwritten; `tX` is then popped
through the old queue entry and the reconstructed plan contains the
infinite-bias transition "forbidden". -/
theorem claim2_infinite_bias_reaches_plan :
    hC2 tM tX "forbidden" = .ok .inf
      ∧ runC2.map (fun r => r.1) = .ok (.success [(tA, "step"), (tM, "forbidden")] 2) := by
  decide

/-- C3: with an unreachable goal, the search only terminates with the
failure result while the heap stays non-empty (first conjunct: the budget
expires after one iteration).  If the queue empties before the budget does
(second conjunct: no recipes, so the start has no successors and the second
iteration pops from an empty heap), `heappop` raises `IndexError` instead
of returning the failure result. -/
theorem claim3_empty_heap_raises :
    (search (graphSucc []) u0 (is_goal [("gem", 1)]) hzero 1 1).map (fun r => r.1)
        = .ok .failure
      ∧ search (graphSucc []) u0 (is_goal [("gem", 1)]) hzero 5 5 = .error .popEmpty := by
  decide

/-- C4: on success the code returns only the path list — pairs of
(*predecessor* state, action), not (resulting state, action): the first
pair of this run is `(exStart, "chop")` although the state resulting from
"chop" is `exS1 ≠ exStart`.  The total cost 2 is computed and printed
(`printedCost` in the model) but is not part of the returned value; on
failure the function returns `None` (`retOf .failure = none`). -/
theorem claim4_return_shape :
    runC4.map (fun r => r.1) = .ok (.success [(exStart, "chop"), (exS1, "craft plank")] 2)
      ∧ effect ruleChop exStart = .ok exS1
      ∧ exStart ≠ exS1
      ∧ retOf .failure = none := by decide

/-- C5: on the spec's own end-to-end example universe `{wood, plank}`, the
search does not return the plan `[chop, craft plank]`: the very first
relaxation calls the heuristic, which indexes `effect_state['bench']`, a
key that does not exist in this universe, so the run raises
`KeyError: 'bench'`. -/
theorem claim5_example_run_keyerror : runC5 = .error (.keyErr "bench") := by decide

/-- C8 counterexample: "craft rail" produces the terminal artifact rail,
yet the heuristic returns the finite bias `-1000` even when the resulting
state holds 50 rails (far beyond any needed count) — it never returns
`inf` for rail overproduction, contradicting the claim for every
terminal-artifact action. -/
theorem claim8_rail_finite_beyond_count :
    heuristic [("cart", 1), ("rail", 30)] [("cart", 1), ("rail", 50)] "craft rail"
        = .ok (.fin (-1000))
      ∧ dget [(("cart" : Item), (1 : Int)), ("rail", 50)] "rail" = .ok 50
      ∧ Prio.fin (-1000) ≠ .inf := by decide

/-! ### Pushes carry only priorities below 10000 -/

theorem prio_ltB_ne_inf (p : Prio) (h : Prio.ltB p (.fin 10000) = true) : p ≠ .inf := by
  cases p with
  | fin q => simp
  | inf => simp [Prio.ltB] at h

theorem pushesBelow_append_pop (tr : List Ev) (p0 : Prio) (s0 : State) (c0 : Int)
    (cn : Option Int) (b : Bool) (hp : pushesBelow tr) :
    pushesBelow (tr ++ [.pop p0 s0 c0 cn b]) := by
  intro p s hmem
  rcases List.mem_append.mp hmem with h | h
  · exact hp p s h
  · simp at h

theorem relax_pushesBelow (hfn : State → State → String → Except PyErr Prio)
    (cur : State) (st st' : SSt) (succ : String × State × Int)
    (hp : pushesBelow st.trace) (h : relax hfn cur st succ = .ok st') :
    pushesBelow st'.trace := by
  unfold relax at h
  cases hcs : st.costSoFar cur with
  | none => rw [hcs] at h; cases h
  | some cCur =>
    rw [hcs] at h
    dsimp only at h
    split at h
    · cases hh : hfn cur succ.2.1 succ.1 with
      | error e => rw [hh] at h; cases h
      | ok bias =>
        rw [hh] at h
        injection h with h'
        subst h'
        dsimp only
        split
        · next hlt =>
          intro p s hmem
          rcases List.mem_append.mp hmem with hm | hm
          · exact hp p s hm
          · simp only [List.mem_singleton, Ev.push.injEq] at hm
            obtain ⟨hpp, _⟩ := hm
            subst hpp
            exact ⟨hlt, prio_ltB_ne_inf _ hlt⟩
        · exact hp
    · injection h with h'
      subst h'
      exact hp

theorem expandAll_pushesBelow (hfn : State → State → String → Except PyErr Prio)
    (cur : State) (st st' : SSt) (l : List (String × State × Int))
    (hp : pushesBelow st.trace) (h : expandAll hfn cur st l = .ok st') :
    pushesBelow st'.trace := by
  induction l generalizing st with
  | nil =>
    unfold expandAll at h
    injection h with h'
    subst h'
    exact hp
  | cons a rest ih =>
    unfold expandAll at h
    cases hr : relax hfn cur st a with
    | error e => rw [hr] at h; cases h
    | ok st1 => rw [hr] at h; exact ih st1 (relax_pushesBelow _ _ _ _ _ hp hr) h

theorem loop_pushesBelow (gfn : State → Except PyErr (List (String × State × Int)))
    (isg : State → Except PyErr Bool) (hfn : State → State → String → Except PyErr Prio)
    (fuel rfuel : Nat) (st : SSt) (out : SOutcome) (tr : List Ev)
    (hp : pushesBelow st.trace)
    (h : loop gfn isg hfn fuel rfuel st = .ok (out, tr)) : pushesBelow tr := by
  induction fuel generalizing st out tr with
  | zero =>
    unfold loop at h
    injection h with h'
    injection h' with hout htr
    subst htr
    exact hp
  | succ n ih =>
    unfold loop at h
    cases hq : popMin st.queue with
    | none => rw [hq] at h; cases h
    | some pq =>
      rw [hq] at h
      obtain ⟨ent, q'⟩ := pq
      dsimp only at h
      cases hg : isg ent.2.1 with
      | error e => rw [hg] at h; cases h
      | ok b =>
        rw [hg] at h
        cases b with
        | true =>
          dsimp only at h
          cases hr : recon st.cameFrom ent.2.1 rfuel with
          | error e => rw [hr] at h; cases h
          | ok pc =>
            rw [hr] at h
            injection h with h'
            injection h' with hout htr
            subst htr
            exact pushesBelow_append_pop _ _ _ _ _ _ hp
        | false =>
          dsimp only at h
          cases hgf : gfn ent.2.1 with
          | error e => rw [hgf] at h; cases h
          | ok succs =>
            rw [hgf] at h
            dsimp only at h
            cases hex : expandAll hfn ent.2.1
                (SSt.mk q' st.cameFrom st.costSoFar
                  (st.trace ++ [.pop ent.1 ent.2.1 ent.2.2 (st.costSoFar ent.2.1) true]))
                succs with
            | error e => rw [hex] at h; cases h
            | ok st1 =>
              rw [hex] at h
              dsimp only at h
              exact ih st1 out tr
                (expandAll_pushesBelow _ _ _ _ _
                  (pushesBelow_append_pop _ _ _ _ _ _ hp) hex) h

/-- C2 (amended): in every terminating run of the search, every entry ever
pushed onto the priority queue has priority `< 10000` — in particular a
finite one, so a relaxation whose bias is infinite is never pushed.  (The
unamended part of the claim fails: the relaxation still overwrites
`came_from`, so the transition can reach the reconstructed plan; see the
counterexample.) -/
theorem claim2_pushes_are_finite (gfn : State → Except PyErr (List (String × State × Int)))
    (start : State) (isg : State → Except PyErr Bool)
    (hfn : State → State → String → Except PyErr Prio) (fuel rfuel : Nat)
    (out : SOutcome) (tr : List Ev)
    (h : search gfn start isg hfn fuel rfuel = .ok (out, tr)) :
    ∀ p s, Ev.push p s ∈ tr → Prio.ltB p (.fin 10000) = true ∧ p ≠ .inf := by
  have h0 : pushesBelow [Ev.push (.fin 0) start] := by
    intro p s hmem
    simp only [List.mem_singleton, Ev.push.injEq] at hmem
    obtain ⟨hpp, _⟩ := hmem
    subst hpp
    exact ⟨by decide, by simp⟩
  exact loop_pushesBelow _ _ _ _ _ _ _ _ h0 h

/-- Witness for C2's amended theorem: the trivial run `runW` pushes the
seed entry `(0, w0)`, whose priority is below 10000 and finite. -/
theorem claim2_pushes_are_finite_witness :
    Prio.ltB (.fin 0) (.fin 10000) = true ∧ Prio.fin 0 ≠ .inf :=
  claim2_pushes_are_finite (graphSucc []) w0 (is_goal [("w", 0)]) hzero 1 1
    (.success [] 0) [.push (.fin 0) w0, .pop (.fin 0) w0 0 (some 0) false]
    (by decide) (.fin 0) w0 (by decide)

/-! ### Non-negativity of reachable states -/

theorem dget_mem (k : Item) (v : Int) :
    ∀ s : State, dget s k = .ok v → (k, v) ∈ s := by
  intro s
  induction s with
  | nil => intro h; cases h
  | cons e rest ih =>
    intro h
    obtain ⟨k', v'⟩ := e
    unfold dget at h
    split at h
    · next heq =>
      injection h with h'
      subst h'
      subst heq
      exact List.mem_cons_self _ _
    · exact List.mem_cons_of_mem _ (ih h)

theorem dget_dset_self (k : Item) (w : Int) :
    ∀ s : State, dget (dset s k w) k = .ok w := by
  intro s
  induction s with
  | nil => simp [dset, dget]
  | cons e rest ih =>
    obtain ⟨k', v'⟩ := e
    unfold dset
    split
    · next heq => subst heq; simp [dget]
    · next hne => unfold dget; rw [if_neg hne]; exact ih

theorem dget_dset_ne (k k' : Item) (w : Int) (hne : k ≠ k') :
    ∀ s : State, dget (dset s k w) k' = dget s k' := by
  intro s
  induction s with
  | nil => simp [dset, dget, hne]
  | cons e rest ih =>
    obtain ⟨k0, v0⟩ := e
    by_cases h0 : k0 = k
    · subst h0
      simp [dset, dget, hne]
    · by_cases h1 : k0 = k'
      · simp [dset, dget, h0, h1, hne.symm]
      · simp [dset, dget, h0, h1, ih]

theorem nonneg_dset (k : Item) (w : Int) (hw : 0 ≤ w) :
    ∀ s : State, nonneg s → nonneg (dset s k w) := by
  intro s
  induction s with
  | nil =>
    intro _ e he
    simp only [dset, List.mem_singleton] at he
    subst he
    exact hw
  | cons f rest ih =>
    intro hn
    obtain ⟨k', v'⟩ := f
    have hhead : (0 : Int) ≤ v' := hn (k', v') (List.mem_cons_self _ _)
    have htail : nonneg rest := fun e he => hn e (List.mem_cons_of_mem _ he)
    intro e he
    unfold dset at he
    split at he
    · rcases List.mem_cons.mp he with h | h
      · subst h; exact hw
      · exact htail e h
    · rcases List.mem_cons.mp he with h | h
      · subst h; exact hhead
      · exact ih htail e h

theorem checkCons_sound (s : State) :
    ∀ (l : List (Item × Int)) (p b : Bool), checkCons l s p = .ok b → b = true →
      p = true ∧ ∀ ma ∈ l, ∃ v, dget s ma.1 = .ok v ∧ ma.2 ≤ v := by
  intro l
  induction l with
  | nil =>
    intro p b h hb
    unfold checkCons at h
    injection h with h'
    subst h'
    exact ⟨hb, by simp⟩
  | cons ma rest ih =>
    intro p b h hb
    obtain ⟨m, a⟩ := ma
    unfold checkCons at h
    cases hd : dget s m with
    | error e => rw [hd] at h; cases h
    | ok v =>
      rw [hd] at h
      obtain ⟨hpa, hrest⟩ := ih _ _ h hb
      simp only [Bool.and_eq_true] at hpa
      obtain ⟨hp, hav⟩ := hpa
      refine ⟨hp, ?_⟩
      intro ma' hma'
      rcases List.mem_cons.mp hma' with hh | hh
      · subst hh
        exact ⟨v, hd, of_decide_eq_true hav⟩
      · exact hrest ma' hh

theorem checkReq_true (s : State) :
    ∀ (l : List Item) (p b : Bool), checkReq l s p = .ok b → b = true → p = true := by
  intro l
  induction l with
  | nil =>
    intro p b h hb
    unfold checkReq at h
    injection h with h'
    subst h'
    exact hb
  | cons m rest ih =>
    intro p b h hb
    unfold checkReq at h
    cases hd : dget s m with
    | error e => rw [hd] at h; cases h
    | ok v =>
      rw [hd] at h
      have hand := ih _ _ h hb
      simp only [Bool.and_eq_true] at hand
      exact hand.1

theorem check_sound (r : Rule) (s : State) (h : check r s = .ok true) :
    ∀ ma ∈ r.consumes, ∃ v, dget s ma.1 = .ok v ∧ ma.2 ≤ v := by
  unfold check at h
  cases h1 : checkCons r.consumes s true with
  | error e => rw [h1] at h; cases h
  | ok p =>
    rw [h1] at h
    have hp : p = true := checkReq_true s r.requires p true h rfl
    subst hp
    exact (checkCons_sound s r.consumes true true h1 rfl).2

theorem applyProd_nonneg :
    ∀ (l : List (Item × Int)) (s s' : State), nonneg s → (∀ e ∈ l, 0 ≤ e.2) →
      applyProd l s = .ok s' → nonneg s' := by
  intro l
  induction l with
  | nil =>
    intro s s' hn _ h
    unfold applyProd at h
    injection h with h'
    subst h'
    exact hn
  | cons ma rest ih =>
    intro s s' hn hl h
    obtain ⟨m, a⟩ := ma
    unfold applyProd at h
    cases hd : dget s m with
    | error e => rw [hd] at h; cases h
    | ok v =>
      rw [hd] at h
      have hv : (0 : Int) ≤ v := hn (m, v) (dget_mem m v s hd)
      have ha : (0 : Int) ≤ a := hl (m, a) (List.mem_cons_self _ _)
      exact ih (dset s m (v + a)) s'
        (nonneg_dset m (v + a) (by omega) s hn)
        (fun e he => hl e (List.mem_cons_of_mem _ he)) h

theorem applyCons_nonneg :
    ∀ (l : List (Item × Int)) (s s' : State), nonneg s →
      (l.map Prod.fst).Nodup →
      (∀ ma ∈ l, ∃ v, dget s ma.1 = .ok v ∧ ma.2 ≤ v) →
      applyCons l s = .ok s' → nonneg s' := by
  intro l
  induction l with
  | nil =>
    intro s s' hn _ _ h
    unfold applyCons at h
    injection h with h'
    subst h'
    exact hn
  | cons ma rest ih =>
    intro s s' hn hnd hc h
    obtain ⟨m, a⟩ := ma
    unfold applyCons at h
    cases hd : dget s m with
    | error e => rw [hd] at h; cases h
    | ok v =>
      rw [hd] at h
      obtain ⟨v0, hd0, hav⟩ := hc (m, a) (List.mem_cons_self _ _)
      rw [hd] at hd0
      injection hd0 with hv0
      subst hv0
      simp only [List.map_cons, List.nodup_cons] at hnd
      refine ih (dset s m (v - a)) s'
        (nonneg_dset m (v - a) (by omega) s hn) hnd.2 ?_ h
      intro ma' hma'
      obtain ⟨m', a'⟩ := ma'
      have hne : m ≠ m' := by
        intro hcontra
        exact hnd.1 (hcontra ▸ (List.mem_map.mpr ⟨(m', a'), hma', rfl⟩))
      obtain ⟨v', hv', hav'⟩ := hc (m', a') (List.mem_cons_of_mem _ hma')
      refine ⟨v', ?_, hav'⟩
      rw [dget_dset_ne m m' (v - a) hne s]
      exact hv'

theorem effect_nonneg (r : Rule) (s s' : State) (hn : nonneg s)
    (hprod : ∀ e ∈ r.produces, 0 ≤ e.2)
    (hnd : (r.consumes.map Prod.fst).Nodup)
    (hc : check r s = .ok true) (he : effect r s = .ok s') : nonneg s' := by
  unfold effect at he
  cases h1 : applyCons r.consumes s with
  | error e => rw [h1] at he; cases he
  | ok s1 =>
    rw [h1] at he
    exact applyProd_nonneg r.produces s1 s'
      (applyCons_nonneg r.consumes s s1 hn hnd (check_sound r s hc) h1) hprod he

/-- C6: every state reachable from the start by a chain of recipe
applications whose checks pass has only non-negative item counts
(assuming a non-negative start and well-formed rules: non-negative
`Produces` amounts and duplicate-free `Consumes` keys, as Python dicts
guarantee).  The single-step case — an effect applied after a passing
check never drives a consumed item negative — is the `step` case of the
induction. -/
theorem claim6_reachable_nonneg (rs : List Rule) (s0 s : State) (h0 : nonneg s0)
    (hprod : ∀ r ∈ rs, ∀ e ∈ r.produces, 0 ≤ e.2)
    (hnd : ∀ r ∈ rs, (r.consumes.map Prod.fst).Nodup)
    (hre : ReachableBy rs s0 s) : nonneg s := by
  induction hre with
  | refl => exact h0
  | step r hr ht hc he ih => exact effect_nonneg r _ _ ih (hprod r hr) (hnd r hr) hc he

/-- Witness for C6: the chain chop → craft plank from the example start
reaches `{wood: 0, plank: 1}`, whose counts are non-negative. -/
theorem claim6_reachable_nonneg_witness :
    nonneg [(("wood" : Item), (0 : Int)), ("plank", 1)] :=
  claim6_reachable_nonneg [ruleChop, rulePlank] exStart [("wood", 0), ("plank", 1)]
    (by unfold nonneg; decide) (by decide) (by decide)
    (@ReachableBy.step [ruleChop, rulePlank] exStart exS1 [("wood", 0), ("plank", 1)]
      rulePlank (by decide)
      (@ReachableBy.step [ruleChop, rulePlank] exStart exStart exS1
        ruleChop (by decide) (.refl exStart) (by decide) (by decide))
      (by decide) (by decide))

/-! ### Goal checker: threshold semantics and monotonicity -/

theorem goReached_count (s : State) :
    ∀ (goal : List (Item × Int)) (acc : Nat),
      (∀ gv ∈ goal, ∃ n, dget s gv.1 = .ok n) →
      goReached s goal acc = .ok (acc + goal.countP (satB s)) := by
  intro goal
  induction goal with
  | nil => intro acc _; simp [goReached, List.countP_nil]
  | cons gv rest ih =>
    intro acc hp
    obtain ⟨g, v⟩ := gv
    obtain ⟨n, hn⟩ := hp (g, v) (List.mem_cons_self _ _)
    unfold goReached
    rw [hn]
    dsimp only
    rw [ih _ (fun e he => hp e (List.mem_cons_of_mem _ he))]
    congr 1
    rw [List.countP_cons]
    have hsat : satB s (g, v) = decide (v ≤ n) := by unfold satB; rw [hn]
    rw [hsat]
    by_cases hv : v ≤ n
    · simp [hv]
      omega
    · simp [hv]

theorem is_goal_iff_all (goal : List (Item × Int)) (t : State)
    (hpt : ∀ gv ∈ goal, ∃ n, dget t gv.1 = .ok n) :
    is_goal goal t = .ok true ↔ ∀ gv ∈ goal, satB t gv = true := by
  unfold is_goal
  rw [goReached_count t goal 0 hpt]
  dsimp only
  constructor
  · intro h
    injection h with h'
    simp only [Nat.zero_add, beq_iff_eq] at h'
    exact List.countP_eq_length.mp h'
  · intro h
    have hc : goal.countP (satB t) = goal.length := List.countP_eq_length.mpr h
    simp [hc]

/-- C7: the goal checker returns true iff every goal item's count in the
state meets its threshold (≥ semantics), provided every goal item is a key
of the state (otherwise the checker raises `KeyError`); consequently goal
satisfaction is monotone under item-wise domination. -/
theorem claim7_goal_threshold_monotone (goal : List (Item × Int)) (s s' : State)
    (hp : ∀ gv ∈ goal, ∃ n, dget s gv.1 = .ok n) :
    (is_goal goal s = .ok true ↔ ∀ gv ∈ goal, ∀ n, dget s gv.1 = .ok n → gv.2 ≤ n)
      ∧ ((∀ k n, dget s k = .ok n → ∃ m, dget s' k = .ok m ∧ n ≤ m) →
          is_goal goal s = .ok true → is_goal goal s' = .ok true) := by
  constructor
  · rw [is_goal_iff_all goal s hp]
    constructor
    · intro h gv hgv n hn
      have hs := h gv hgv
      unfold satB at hs
      rw [hn] at hs
      exact of_decide_eq_true hs
    · intro h gv hgv
      obtain ⟨n, hn⟩ := hp gv hgv
      unfold satB
      rw [hn]
      exact decide_eq_true (h gv hgv n hn)
  · intro hdom hs
    have hp' : ∀ gv ∈ goal, ∃ m, dget s' gv.1 = .ok m := by
      intro gv hgv
      obtain ⟨n, hn⟩ := hp gv hgv
      obtain ⟨m, hm, _⟩ := hdom gv.1 n hn
      exact ⟨m, hm⟩
    rw [is_goal_iff_all goal s' hp']
    rw [is_goal_iff_all goal s hp] at hs
    intro gv hgv
    obtain ⟨n, hn⟩ := hp gv hgv
    obtain ⟨m, hm, hnm⟩ := hdom gv.1 n hn
    have hsat := hs gv hgv
    unfold satB at hsat ⊢
    rw [hn] at hsat
    rw [hm]
    exact decide_eq_true (le_trans (of_decide_eq_true hsat) hnm)

/-- Witness for C7: `{wood: 0, plank: 2}` dominates `{wood: 0, plank: 1}`,
which satisfies the goal `{plank: 1}`, so by monotonicity the dominating
state satisfies it too. -/
theorem claim7_goal_threshold_monotone_witness :
    is_goal [(("plank" : Item), (1 : Int))]
      [(("wood" : Item), (0 : Int)), ("plank", 2)] = .ok true := by
  have hp : ∀ gv ∈ [(("plank" : Item), (1 : Int))],
      ∃ n, dget [(("wood" : Item), (0 : Int)), ("plank", 1)] gv.1 = .ok n := by
    intro gv hgv
    simp only [List.mem_singleton] at hgv
    subst hgv
    exact ⟨1, by decide⟩
  have hdom : ∀ k n, dget [(("wood" : Item), (0 : Int)), ("plank", 1)] k = .ok n →
      ∃ m, dget [(("wood" : Item), (0 : Int)), ("plank", 2)] k = .ok m ∧ n ≤ m := by
    intro k n hkn
    unfold dget at hkn
    split at hkn
    · next h =>
      injection hkn with h'
      subst h'
      refine ⟨0, ?_, le_refl 0⟩
      unfold dget
      rw [if_pos h]
    · next h =>
      unfold dget at hkn
      split at hkn
      · next h2 =>
        injection hkn with h'
        subst h'
        refine ⟨2, ?_, by omega⟩
        unfold dget
        rw [if_neg h]
        unfold dget
        rw [if_pos h2]
      · cases hkn
  exact (claim7_goal_threshold_monotone [("plank", 1)] [("wood", 0), ("plank", 1)]
    [("wood", 0), ("plank", 2)] hp).2 hdom (by decide)

/-! ### Effect as a pure delta on a fresh state -/

theorem amt_notmem (k : Item) :
    ∀ l : List (Item × Int), k ∉ l.map Prod.fst → amt l k = 0 := by
  intro l
  induction l with
  | nil => intro _; rfl
  | cons ma rest ih =>
    intro hk
    obtain ⟨m, a⟩ := ma
    simp only [List.map_cons, List.mem_cons] at hk
    push_neg at hk
    unfold amt
    rw [if_neg (Ne.symm hk.1)]
    exact ih hk.2

theorem applyCons_char :
    ∀ (l : List (Item × Int)) (s s' : State), (l.map Prod.fst).Nodup →
      applyCons l s = .ok s' →
      ∀ k v, dget s k = .ok v → dget s' k = .ok (v - amt l k) := by
  intro l
  induction l with
  | nil =>
    intro s s' _ h k v hk
    unfold applyCons at h
    injection h with h'
    subst h'
    unfold amt
    simpa using hk
  | cons ma rest ih =>
    intro s s' hnd h k v hk
    obtain ⟨m, a⟩ := ma
    unfold applyCons at h
    cases hd : dget s m with
    | error e => rw [hd] at h; cases h
    | ok vm =>
      rw [hd] at h
      simp only [List.map_cons, List.nodup_cons] at hnd
      by_cases hkm : m = k
      · subst hkm
        rw [hd] at hk
        injection hk with hv
        subst hv
        have h1 : dget (dset s m (vm - a)) m = .ok (vm - a) := dget_dset_self m (vm - a) s
        have h2 := ih (dset s m (vm - a)) s' hnd.2 h m (vm - a) h1
        unfold amt
        rw [if_pos rfl, h2, amt_notmem m rest hnd.1]
        norm_num
      · have h1 : dget (dset s m (vm - a)) k = dget s k := dget_dset_ne m k (vm - a) hkm s
        have h2 := ih (dset s m (vm - a)) s' hnd.2 h k v (h1 ▸ hk)
        unfold amt
        rw [if_neg hkm]
        exact h2

theorem applyProd_char :
    ∀ (l : List (Item × Int)) (s s' : State), (l.map Prod.fst).Nodup →
      applyProd l s = .ok s' →
      ∀ k v, dget s k = .ok v → dget s' k = .ok (v + amt l k) := by
  intro l
  induction l with
  | nil =>
    intro s s' _ h k v hk
    unfold applyProd at h
    injection h with h'
    subst h'
    unfold amt
    simpa using hk
  | cons ma rest ih =>
    intro s s' hnd h k v hk
    obtain ⟨m, a⟩ := ma
    unfold applyProd at h
    cases hd : dget s m with
    | error e => rw [hd] at h; cases h
    | ok vm =>
      rw [hd] at h
      simp only [List.map_cons, List.nodup_cons] at hnd
      by_cases hkm : m = k
      · subst hkm
        rw [hd] at hk
        injection hk with hv
        subst hv
        have h1 : dget (dset s m (vm + a)) m = .ok (vm + a) := dget_dset_self m (vm + a) s
        have h2 := ih (dset s m (vm + a)) s' hnd.2 h m (vm + a) h1
        unfold amt
        rw [if_pos rfl, h2, amt_notmem m rest hnd.1]
        norm_num
      · have h1 : dget (dset s m (vm + a)) k = dget s k := dget_dset_ne m k (vm + a) hkm s
        have h2 := ih (dset s m (vm + a)) s' hnd.2 h k v (h1 ▸ hk)
        unfold amt
        rw [if_neg hkm]
        exact h2

theorem applyCons_err :
    ∀ (l : List (Item × Int)) (s s' : State), applyCons l s = .ok s' →
      ∀ k, dget s k = .error (.keyErr k) → dget s' k = .error (.keyErr k) := by
  intro l
  induction l with
  | nil =>
    intro s s' h k hk
    unfold applyCons at h
    injection h with h'
    subst h'
    exact hk
  | cons ma rest ih =>
    intro s s' h k hk
    obtain ⟨m, a⟩ := ma
    unfold applyCons at h
    cases hd : dget s m with
    | error e => rw [hd] at h; cases h
    | ok vm =>
      rw [hd] at h
      have hkm : m ≠ k := by
        intro hc
        subst hc
        rw [hd] at hk
        cases hk
      refine ih (dset s m (vm - a)) s' h k ?_
      rw [dget_dset_ne m k (vm - a) hkm s]
      exact hk

theorem applyProd_err :
    ∀ (l : List (Item × Int)) (s s' : State), applyProd l s = .ok s' →
      ∀ k, dget s k = .error (.keyErr k) → dget s' k = .error (.keyErr k) := by
  intro l
  induction l with
  | nil =>
    intro s s' h k hk
    unfold applyProd at h
    injection h with h'
    subst h'
    exact hk
  | cons ma rest ih =>
    intro s s' h k hk
    obtain ⟨m, a⟩ := ma
    unfold applyProd at h
    cases hd : dget s m with
    | error e => rw [hd] at h; cases h
    | ok vm =>
      rw [hd] at h
      have hkm : m ≠ k := by
        intro hc
        subst hc
        rw [hd] at hk
        cases hk
      refine ih (dset s m (vm + a)) s' h k ?_
      rw [dget_dset_ne m k (vm + a) hkm s]
      exact hk

/-- C9: `effect` is a pure function of its argument — it returns a freshly
built state whose every present key holds the old count minus the consumed
amount plus the produced amount, and introduces no new keys (absent keys
stay absent).  The input state is a value and is untouched by the call:
the Python code realises this by mutating only `state.copy()`, which the
value semantics of the embedding captures (hypotheses: the `Consumes` and
`Produces` dicts have duplicate-free keys, as Python dicts guarantee). -/
theorem claim9_effect_functional_delta (r : Rule) (s s' : State)
    (hndc : (r.consumes.map Prod.fst).Nodup)
    (hndp : (r.produces.map Prod.fst).Nodup)
    (he : effect r s = .ok s') :
    (∀ k v, dget s k = .ok v →
        dget s' k = .ok (v - amt r.consumes k + amt r.produces k))
      ∧ (∀ k, dget s k = .error (.keyErr k) → dget s' k = .error (.keyErr k)) := by
  unfold effect at he
  cases h1 : applyCons r.consumes s with
  | error e => rw [h1] at he; cases he
  | ok s1 =>
    rw [h1] at he
    constructor
    · intro k v hk
      exact applyProd_char r.produces s1 s' hndp he k (v - amt r.consumes k)
        (applyCons_char r.consumes s s1 hndc h1 k v hk)
    · intro k hk
      exact applyProd_err r.produces s1 s' he k (applyCons_err r.consumes s s1 h1 k hk)

/-- Witness for C9: applying "craft plank" to `{wood: 1, plank: 0}` yields
a state whose wood count is the old count 1 minus the consumed 1 plus the
produced 0. -/
theorem claim9_effect_functional_delta_witness :
    dget [(("wood" : Item), (0 : Int)), ("plank", 1)] "wood"
      = .ok (1 - amt rulePlank.consumes "wood" + amt rulePlank.produces "wood") :=
  (claim9_effect_functional_delta rulePlank exS1 [("wood", 0), ("plank", 1)]
    (by decide) (by decide) (by decide)).1 "wood" 1 (by decide)

/-! ### Immediate success and falsy empty plan -/

/-- C10: whenever the start state satisfies the goal and the budget allows
at least one iteration, the search succeeds on the first iteration and
returns the empty path `[]` (whichever graph and heuristic are supplied);
and the empty plan is as falsy as the `None` returned on failure, so the
`if resulting_plan:` test of the CLI cannot tell this success from
failure. -/
theorem claim10_start_goal_empty_falsy
    (gfn : State → Except PyErr (List (String × State × Int)))
    (isg : State → Except PyErr Bool)
    (hfn : State → State → String → Except PyErr Prio)
    (s0 : State) (fuel rfuel : Nat)
    (hg : isg s0 = .ok true) (hf : 1 ≤ fuel) :
    (search gfn s0 isg hfn fuel rfuel).map (fun r => retOf r.1) = .ok (some [])
      ∧ truthy (some []) = truthy none := by
  obtain ⟨n, rfl⟩ : ∃ n, fuel = n + 1 := ⟨fuel - 1, by omega⟩
  constructor
  · simp [search, loop, popMin, minEnt, eraseFirst, hg, recon, reconLoop, retOf, Except.map]
  · rfl

/-- Witness for C10: the concrete start `{z: 0}` already satisfies goal
`{z: 0}`, and the one-iteration search returns the empty plan. -/
theorem claim10_start_goal_empty_falsy_witness :
    ((search (graphSucc []) z0 (is_goal [("z", 0)]) hzero 1 1).map (fun r => retOf r.1)
        = .ok (some [])
      ∧ truthy (some []) = truthy none) :=
  claim10_start_goal_empty_falsy (graphSucc []) (is_goal [("z", 0)]) hzero z0 1 1
    (by decide) (by decide)

/-! ### Terminal-artifact biases of the heuristic -/

/-- C8 (amended): the cart branch behaves as the claim says — `-1000` while
at most one cart results, `inf` as soon as a second cart would exist — but
the rail branch returns the finite `-1000` unconditionally, with no
overproduction cutoff. -/
theorem claim8_cart_rail_bias (cur eff : State) (n c : Int)
    (hc : dget eff "cart" = .ok n) (hcur : dget cur "cart" = .ok c) :
    heuristic cur eff "craft cart" = .ok (if 1 < n then Prio.inf else .fin (-1000))
      ∧ heuristic cur eff "craft rail" = .ok (.fin (-1000)) := by
  have e1 : strIn "axe for coal" "craft cart" = false := by decide
  have e2 : strIn "axe for cobble" "craft cart" = false := by decide
  have e3 : strIn "axe for ore" "craft cart" = false := by decide
  have e4 : strIn "stone_axe at bench" "craft cart" = false := by decide
  have e5 : strIn "craft cart" "craft cart" = true := by decide
  have f1 : strIn "axe for coal" "craft rail" = false := by decide
  have f2 : strIn "axe for cobble" "craft rail" = false := by decide
  have f3 : strIn "axe for ore" "craft rail" = false := by decide
  have f4 : strIn "stone_axe at bench" "craft rail" = false := by decide
  have f5 : strIn "craft cart" "craft rail" = false := by decide
  have f6 : strIn "craft rail" "craft rail" = true := by decide
  constructor
  · unfold heuristic axeBranch benchStoneAxe cartBranch
    rw [e1, e2, e3, e4, e5]
    simp only [cond_true, cond_false]
    rw [hc]
    simp only [hOr]
    by_cases h1 : 1 < n
    · simp [h1]
    · simp [h1]
  · unfold heuristic axeBranch benchStoneAxe cartBranch railBranch
    rw [f1, f2, f3, f4, f5, f6]
    simp only [cond_true, cond_false]
    rw [hcur]
    simp only [hOr]
    by_cases h0 : 0 < c
    · simp [h0]
    · simp [h0]

/-- Witness for C8's amended theorem: with one cart would-be-crafted into a
state already holding one (count 2), "craft cart" gets `inf`; "craft rail"
gets `-1000` from the same states. -/
theorem claim8_cart_rail_bias_witness :
    heuristic [(("cart" : Item), (0 : Int))] [(("cart" : Item), (2 : Int))] "craft cart"
        = .ok (if (1 : Int) < 2 then Prio.inf else .fin (-1000))
      ∧ heuristic [(("cart" : Item), (0 : Int))] [(("cart" : Item), (2 : Int))] "craft rail"
        = .ok (.fin (-1000)) :=
  claim8_cart_rail_bias [("cart", 0)] [("cart", 2)] 2 0 (by decide) (by decide)

end CraftPlanner
